import Mathlib

/-!
# gio-icon-browser: search, sequencing guard, grid layout and key dispatch

A shallow embedding of `main.go`.

Conventions of the embedding:

* Go `int` values are Lean `Int`s; the Go operators `/` and `%` are `Int.tdiv` and `Int.tmod`
  (truncation toward zero) and a zero divisor is a run-time panic, modelled by `none`.
  Every integer of the program is a pixel size, a list length or a counter, far below
  `2^63`, so wrap-around is not modelled.
* `searchCurSeq` and the `seq` tag of a response start at `0` and are only ever
  incremented or reset to `0`; they are natural numbers.
* A Go slice `[]int` that may be `nil` is an `Option (List Nat)`: `none` is `nil`,
  `some []` is a non-nil empty slice.
* `th.TextSize` and `textSize` are `unit.Sp` (float32) values.  The program only ever
  stores whole numbers there (18 at startup, then steps of one), which float32 represents
  exactly, so they are `Int`s; the one inexact operation, `int(textSize * 2.67)`, is
  modelled bit-exactly by `iconSizeOf`.
* `strings.ToLower` is a parameter `toLower`; `asciiToLower` is its restriction to
  ASCII text, used for concrete evaluations.  The generated table `allEntries` is a
  parameter as well.
-/

namespace IconBrowser

/-! ## Strings -/

/-- The test `strings.Contains(s, sub)` on character lists: `sub` is a prefix of some
suffix of `s`.  (On valid UTF-8 text the byte-wise search of the library finds exactly
the character-wise occurrences.) -/
def containsChars (sub : List Char) : List Char → Bool
  | [] => sub.isPrefixOf []
  | c :: t => sub.isPrefixOf (c :: t) || containsChars sub t

/-- The library call `strings.Contains(s, sub)`. -/
def strContains (s sub : String) : Bool :=
  containsChars sub.data s.data

/-- The library call `strings.ToLower` on ASCII text. -/
def asciiToLower (s : String) : String :=
  String.mk (s.data.map Char.toLower)

/-! ## Catalog -/

/-- The struct `iconEntry` (the `icon` glyph is not modelled). -/
structure iconEntry where
  name : String
  key : String
  varName : String
  deriving DecidableEq

/-- The array `allIndices` filled by `init`: `allIndices[i] = i` for `i < numEntries`. -/
def allIndices (numEntries : Nat) : List Nat :=
  List.range numEntries

/-! ## Search scan (`runSearch`, the body of the goroutine) -/

/-- The struct `searchResponse`. -/
structure searchResponse where
  indices : Option (List Nat)
  seq : Nat
  deriving DecidableEq

/-- The condition of the `if` inside the scan loop of `runSearch`. -/
def entryMatches (toLower : String → String) (input : String) (e : iconEntry) : Bool :=
  strContains e.key input || strContains (toLower e.name) input

/-- The loop `for i := range allEntries` of `runSearch`: the entries still to visit,
the index `i` of the first of them, and the slice `resp.indices` built so far. -/
def scanLoop (toLower : String → String) (input : String) :
    List iconEntry → Nat → List Nat → List Nat
  | [], _, acc => acc
  | e :: rest, i, acc =>
    if entryMatches toLower input e then scanLoop toLower input rest (i + 1) (acc ++ [i])
    else scanLoop toLower input rest (i + 1) acc

/-- The value of `resp.indices` sent by the goroutine of `runSearch` when the search
field holds `text`: `nil` for an empty lowercased query, else the scan result. -/
def searchScan (toLower : String → String) (allEntries : List iconEntry) (text : String) :
    Option (List Nat) :=
  let input := toLower text
  if input = "" then none
  else some (scanLoop toLower input allEntries 0 [])

/-- Catalog entry whose key is the ASCII-lowercased name. -/
def mkEntry (name : String) : iconEntry :=
  { name := name, key := asciiToLower name, varName := name }

/-- The three-entry catalog of the scenario: Alert, Box, Calendar. -/
def demoEntries : List iconEntry :=
  [mkEntry "Alert", mkEntry "Box", mkEntry "Calendar"]

/-! ## Integer helpers -/

/-- The Go quotient `a / b` on `int`: truncated division, a panic (`none`) when `b` is zero. -/
def goDiv (a b : Int) : Option Int :=
  if b = 0 then none else some (a.tdiv b)

/-- The Go remainder `a % b` on `int`: truncated remainder, a panic (`none`) when `b` is zero. -/
def goMod (a b : Int) : Option Int :=
  if b = 0 then none else some (a.tmod b)

/-- Significand of the float32 constant `2.67`: the constant is `sp267 / 2^22`. -/
def sp267 : Nat := 11198792

/-- Number of low bits a natural number has beyond a 24-bit significand. -/
def excessBits : Nat → Nat → Nat
  | 0, _ => 0
  | fuel + 1, p => if p < 2 ^ 24 then 0 else 1 + excessBits fuel (p / 2)

/-- Rounding of the exact product `p / 2^22` to float32 (round to nearest, ties to
even), as a multiple of `2^-22`. -/
def roundToF32 (p : Nat) : Nat :=
  let s := excessBits 64 p
  let q := p / 2 ^ s
  let r := p % 2 ^ s
  let q1 := if 2 ^ s < 2 * r ∨ (2 * r = 2 ^ s ∧ q % 2 = 1) then q + 1 else q
  q1 * 2 ^ s

/-- The expression `int(ib.textSize * 2.67)` of `ensure` for a whole-number text size:
the float32 product, then truncation toward zero. -/
def iconSizeOf (textSize : Int) : Int :=
  textSize.sign * ((roundToF32 (textSize.natAbs * sp267) / 2 ^ 22 : Nat) : Int)

/-! ## Browser state -/

/-- The field `Position` of `resultList` (`First`, `Offset`, `Count`). -/
structure listPosition where
  first : Int
  offset : Int
  count : Int
  deriving DecidableEq

/-- The struct `iconBrowser`.  `thTextSize` is `th.TextSize`; `searchText`,
`searchFocused` and `searchChanged` are the text of `searchInput`, whether it has the
focus and whether it has a `ChangeEvent` queued; `inflight` holds the responses of the
search goroutines that have not yet been received from `searchResponses`.
`flexWeight` is written by `ensure` and read nowhere, `copyNotif` plays no part in
search or layout; both are left out. -/
structure iconBrowser where
  thTextSize : Int
  inflight : List searchResponse
  searchCurSeq : Nat
  searchText : String
  searchFocused : Bool
  searchChanged : Bool
  position : listPosition
  matchedIndices : Option (List Nat)
  textSize : Int
  iconSize : Int
  maxWidth : Int
  numPerRow : Int
  deriving DecidableEq

/-- The state built by `run` before its loop: `th.TextSize = 18`, everything else zero. -/
def initBrowser : iconBrowser :=
  { thTextSize := 18, inflight := [], searchCurSeq := 0, searchText := "",
    searchFocused := false, searchChanged := false,
    position := { first := 0, offset := 0, count := 0 },
    matchedIndices := none, textSize := 0, iconSize := 0, maxWidth := 0, numPerRow := 0 }

/-- Length `len(s)` of a possibly nil slice. -/
def sliceLen (s : Option (List Nat)) : Int :=
  ((s.getD []).length : Int)

/-! ## Search submission and the sequencing guard -/

/-- The method `runSearch`: bump `searchCurSeq`, start a goroutine that will send the
scan of the search text tagged with the new value.  The goroutine reads the search text
as it starts; here it is the text at the time of the call. -/
def runSearch (toLower : String → String) (allEntries : List iconEntry)
    (ib : iconBrowser) : iconBrowser :=
  let seq := ib.searchCurSeq + 1
  { ib with
    searchCurSeq := seq
    inflight := ib.inflight ++
      [{ indices := searchScan toLower allEntries ib.searchText, seq := seq }] }

/-- The method `scrollResultListTop`. -/
def scrollResultListTop (ib : iconBrowser) : iconBrowser :=
  { ib with position := { ib.position with first := 0, offset := 0 } }

/-- The `case r := <-ib.searchResponses` arm of the loop of `run`. -/
def recvResponse (ib : iconBrowser) (r : searchResponse) : iconBrowser :=
  if r.seq = ib.searchCurSeq then
    scrollResultListTop { ib with matchedIndices := r.indices, searchCurSeq := 0 }
  else ib

/-- The goroutine at position `k` of `inflight` completes its send and the loop of `run`
receives it. -/
def deliver (ib : iconBrowser) (k : Nat) : iconBrowser :=
  match ib.inflight[k]? with
  | none => ib
  | some r => recvResponse { ib with inflight := ib.inflight.eraseIdx k } r

/-- A query is submitted: the search field now holds `q` and `layout` sees its
`ChangeEvent`, calling `runSearch`. -/
def submit (toLower : String → String) (allEntries : List iconEntry)
    (ib : iconBrowser) (q : String) : iconBrowser :=
  runSearch toLower allEntries { ib with searchText := q }

/-- The two steps of the sequencing state machine: a query is submitted, or the
in-flight response at position `k` is received. -/
inductive guardStep where
  | submit (q : String)
  | deliver (k : Nat)
  deriving DecidableEq

/-- One step of the sequencing state machine. -/
def guardNext (toLower : String → String) (allEntries : List iconEntry)
    (ib : iconBrowser) : guardStep → iconBrowser
  | guardStep.submit q => submit toLower allEntries ib q
  | guardStep.deliver k => deliver ib k

/-- An interleaving of submits and receipts, run from the state `ib`. -/
def guardRun (toLower : String → String) (allEntries : List iconEntry)
    (ib : iconBrowser) (steps : List guardStep) : iconBrowser :=
  steps.foldl (guardNext toLower allEntries) ib

/-! ## Key dispatch -/

/-- The type `key.State`. -/
inductive keyState where
  | Press
  | Release
  deriving DecidableEq

/-- The struct `key.Event`; `modifiers` is the bit set `key.Modifiers`. -/
structure keyEvent where
  name : String
  modifiers : Nat
  state : keyState
  deriving DecidableEq

/-- The constant `key.ModCtrl`. -/
def ModCtrl : Nat := 1

/-- The constant `key.NameSpace`. -/
def NameSpace : String := "Space"

/-- The constant `key.NameEscape`. -/
def NameEscape : String := "⎋"

/-- The constant `key.NamePageUp`. -/
def NamePageUp : String := "⇞"

/-- The constant `key.NamePageDown`. -/
def NamePageDown : String := "⇟"

/-- The constant `key.NameHome`. -/
def NameHome : String := "⇱"

/-- The constant `key.NameEnd`. -/
def NameEnd : String := "⇲"

/-- The method `handleKeyEvent`. -/
def handleKeyEvent (toLower : String → String) (allEntries : List iconEntry)
    (ib : iconBrowser) (e : keyEvent) : iconBrowser :=
  if e.state ≠ keyState.Press then ib
  else if e.modifiers = ModCtrl then
    if e.name = "[" then
      if ib.thTextSize > 5 then { ib with thTextSize := ib.thTextSize - 1 } else ib
    else if e.name = "]" then
      if ib.thTextSize < 65 then { ib with thTextSize := ib.thTextSize + 1 } else ib
    else if e.name = "L" ∨ e.name = NameSpace then
      { ib with searchFocused := true }
    else if e.name = "U" then
      if ib.searchFocused then runSearch toLower allEntries { ib with searchText := "" }
      else ib
    else ib
  else if e.modifiers = 0 then
    if e.name = "/" then { ib with searchFocused := true }
    else if e.name = NameEscape then
      if ib.searchFocused then { ib with searchFocused := false } else ib
    else if e.name = NamePageUp then
      { ib with position := { ib.position with first := ib.position.first - ib.position.count } }
    else if e.name = NamePageDown then
      { ib with position := { ib.position with first := ib.position.first + ib.position.count } }
    else if e.name = NameHome then scrollResultListTop ib
    else if e.name = NameEnd then
      { ib with position := { ib.position with first := sliceLen ib.matchedIndices + 1 } }
    else ib
  else ib

/-- The loop over `gtx.Events(ib.win)` in `run`: each key event in turn. -/
def handleKeyEvents (toLower : String → String) (allEntries : List iconEntry)
    (ib : iconBrowser) (keys : List keyEvent) : iconBrowser :=
  keys.foldl (handleKeyEvent toLower allEntries) ib

/-! ## Grid layout -/

/-- The column count computed by `ensure`: `maxWidth / (iconSize * 4)`, replaced by `1`
when it is `0`. -/
def gridColumns (maxWidth iconSize : Int) : Option Int := do
  let n ← goDiv maxWidth (iconSize * 4)
  some (if n = 0 then 1 else n)

/-- The method `ensure`, for a frame whose `gtx.Constraints.Max.X` is `maxX`. -/
def ensure (ib : iconBrowser) (maxX : Int) : Option iconBrowser :=
  if ib.textSize ≠ ib.thTextSize ∨ ib.maxWidth ≠ maxX then do
    let textSize := ib.thTextSize
    let iconSize := iconSizeOf textSize
    let numPerRow ← gridColumns maxX iconSize
    some { ib with textSize := textSize, iconSize := iconSize, maxWidth := maxX,
                   numPerRow := numPerRow }
  else some ib

/-- The row count `numRows` computed at the top of `layResults`. -/
def numRows (len numPerRow : Int) : Option Int := do
  let q ← goDiv len numPerRow
  let r ← goMod len numPerRow
  some (if r ≠ 0 then q + 1 else q)

/-- The integer division of `layEntry` (`gtx.Constraints.Max.X /= ib.numPerRow`); the
result is the width given to the entry.  Drawing is not modelled. -/
def layEntry (numPerRow maxX : Int) (_index : Nat) : Option Int :=
  goDiv maxX numPerRow

/-- The loop `for n := 0; n < ib.numPerRow; n++` of the row closure of `layResults`,
from counter value `n` on, with at most `fuel` iterations left; the result lists the
catalog indices handed to `layEntry`, in order.  A slice index out of range is a
panic. -/
def rowLoop (m : List Nat) (numPerRow maxX first : Int) : Nat → Int → Option (List Nat)
  | 0, _ => some []
  | fuel + 1, n =>
    if n < numPerRow then
      let idx := first + n
      if idx ≥ (m.length : Int) then some []
      else if idx < 0 then none
      else do
        let index ← m[idx.toNat]?
        let _ ← layEntry numPerRow maxX index
        let rest ← rowLoop m numPerRow maxX first fuel (n + 1)
        some (index :: rest)
    else some []

/-- The row closure passed to the list by `layResults`, for row `i`: the catalog
indices it renders, left to right. -/
def layRow (m : List Nat) (numPerRow maxX : Int) (i : Nat) : Option (List Nat) := do
  let first := (i : Int) * numPerRow
  let _ ← goDiv maxX numPerRow
  rowLoop m numPerRow maxX first numPerRow.toNat 0

/-- The method `layResults`: the rows handed to the list, each with the catalog indices
it renders.  (The list calls the closure for the visible rows only; all `numRows` rows
are produced here.) -/
def layResults (ib : iconBrowser) (maxX : Int) : Option (List (List Nat)) := do
  let m := ib.matchedIndices.getD []
  let rows ← numRows (m.length : Int) ib.numPerRow
  (List.range rows.toNat).mapM (layRow m ib.numPerRow maxX)

/-! ## Frames and the event loop -/

/-- The start of `layout`: run a search when the search field reports a `ChangeEvent`,
then default a nil `matchedIndices` to `allIndices[:]`. -/
def layoutBegin (toLower : String → String) (allEntries : List iconEntry)
    (ib : iconBrowser) : iconBrowser :=
  let ib1 := if ib.searchChanged then
      runSearch toLower allEntries { ib with searchChanged := false }
    else ib
  if ib1.matchedIndices = none then
    { ib1 with matchedIndices := some (allIndices allEntries.length) }
  else ib1

/-- What the toolkit feeds one frame: the key events since the previous frame, the
viewport width `gtx.Constraints.Max.X`, the text typed into the search field while it
is laid out (if any), and the `Position` the list widget leaves behind. -/
structure frameInput where
  keys : List keyEvent
  maxX : Int
  typed : Option String
  scrolled : listPosition
  deriving DecidableEq

/-- The method `layout`, `none` when a division by zero or an index panics. -/
def layout (toLower : String → String) (allEntries : List iconEntry)
    (ib : iconBrowser) (f : frameInput) : Option iconBrowser := do
  let ib1 := layoutBegin toLower allEntries ib
  let ib2 ← ensure ib1 f.maxX
  let ib3 := match f.typed with
    | some t => { ib2 with searchText := t, searchChanged := true }
    | none => ib2
  let _ ← layResults ib3 f.maxX
  some { ib3 with position := f.scrolled }

/-- One event of the loop of `run`: a `system.FrameEvent`, or the receipt of the
response of the goroutine at position `k` of `inflight`. -/
inductive loopEvent where
  | frame (f : frameInput)
  | response (k : Nat)
  deriving DecidableEq

/-- One iteration of the `select` loop of `run`. -/
def runStep (toLower : String → String) (allEntries : List iconEntry)
    (ib : iconBrowser) : loopEvent → Option iconBrowser
  | loopEvent.frame f =>
    layout toLower allEntries (handleKeyEvents toLower allEntries ib f.keys) f
  | loopEvent.response k => some (deliver ib k)

/-- The function `run` on a finite sequence of events, from the startup state. -/
def run (toLower : String → String) (allEntries : List iconEntry)
    (events : List loopEvent) : Option iconBrowser :=
  events.foldlM (runStep toLower allEntries) initBrowser

/-- A pressed key with the given modifiers. -/
def pressed (name : String) (modifiers : Nat) : keyEvent :=
  { name := name, modifiers := modifiers, state := keyState.Press }

/-! ## Sessions and the loop invariant -/

/-- The session of three frames and one receipt in which the focused search field is
cleared with Ctrl+U: focus with the slash key, press Ctrl+U, receive the response of the
empty query, lay out the next frame. -/
def emptyQuerySession : List loopEvent :=
  [loopEvent.frame { keys := [pressed "/" 0], maxX := 900, typed := none,
                     scrolled := { first := 0, offset := 0, count := 3 } },
   loopEvent.frame { keys := [pressed "U" ModCtrl], maxX := 900, typed := none,
                     scrolled := { first := 0, offset := 0, count := 3 } },
   loopEvent.response 0,
   loopEvent.frame { keys := [], maxX := 900, typed := none,
                     scrolled := { first := 0, offset := 0, count := 3 } }]

/-- A session of four frames: the first one at width 900, a second one with nothing
changed (so `ensure` skips the recomputation), one after a pressed Ctrl+], and one at
width 0. -/
def resizeSession : List loopEvent :=
  [loopEvent.frame { keys := [], maxX := 900, typed := none,
                     scrolled := { first := 0, offset := 0, count := 3 } },
   loopEvent.frame { keys := [], maxX := 900, typed := none,
                     scrolled := { first := 0, offset := 0, count := 3 } },
   loopEvent.frame { keys := [pressed "]" ModCtrl], maxX := 900, typed := some "al",
                     scrolled := { first := 0, offset := 0, count := 3 } },
   loopEvent.frame { keys := [], maxX := 0, typed := none,
                     scrolled := { first := 0, offset := 0, count := 1 } }]

/-- State invariant of the event loop: the text scale is in `[5, 65]`, and either no
frame has been laid out yet (the cached `textSize` is still 0) or the cached icon size
and column count are positive. -/
def layoutReady (ib : iconBrowser) : Prop :=
  5 ≤ ib.thTextSize ∧ ib.thTextSize ≤ 65 ∧
    (ib.textSize = 0 ∨ (1 ≤ ib.iconSize ∧ 1 ≤ ib.numPerRow))

/-! ## Search: case-insensitivity and the scan result -/

/-- C5: substring search is case-insensitive.  Two query texts whose lowercased forms
are equal produce the same index list on every catalog. -/
theorem searchScan_case_insensitive (toLower : String → String)
    (allEntries : List iconEntry) (q q1 : String) (h : toLower q = toLower q1) :
    searchScan toLower allEntries q = searchScan toLower allEntries q1 := by
  unfold searchScan
  rw [h]

/-- Instance of C5: the texts ICON and icon on the three-entry catalog extended with an
entry named Icon. -/
theorem searchScan_case_insensitive_witness :
    asciiToLower "ICON" = asciiToLower "icon" ∧
    searchScan asciiToLower (demoEntries ++ [mkEntry "Icon"]) "ICON"
      = searchScan asciiToLower (demoEntries ++ [mkEntry "Icon"]) "icon" :=
  ⟨by decide,
   searchScan_case_insensitive asciiToLower (demoEntries ++ [mkEntry "Icon"]) "ICON" "icon"
     (by decide)⟩

/-! ## Text scale -/

/-- One key event keeps the text scale inside `[5, 65]`. -/
theorem handleKeyEvent_textSize_range (toLower : String → String)
    (allEntries : List iconEntry) (ib : iconBrowser) (e : keyEvent)
    (h : 5 ≤ ib.thTextSize ∧ ib.thTextSize ≤ 65) :
    5 ≤ (handleKeyEvent toLower allEntries ib e).thTextSize ∧
      (handleKeyEvent toLower allEntries ib e).thTextSize ≤ 65 := by
  unfold handleKeyEvent runSearch scrollResultListTop
  split_ifs <;> first | exact h | (simp only []; omega)

/-- Any sequence of key events keeps the text scale inside `[5, 65]`. -/
theorem handleKeyEvents_textSize_range (toLower : String → String)
    (allEntries : List iconEntry) (keys : List keyEvent) :
    ∀ ib : iconBrowser, 5 ≤ ib.thTextSize ∧ ib.thTextSize ≤ 65 →
      5 ≤ (handleKeyEvents toLower allEntries ib keys).thTextSize ∧
        (handleKeyEvents toLower allEntries ib keys).thTextSize ≤ 65 := by
  induction keys with
  | nil => intro ib h; simpa [handleKeyEvents] using h
  | cons e rest ih =>
    intro ib h
    have h1 := handleKeyEvent_textSize_range toLower allEntries ib e h
    simpa [handleKeyEvents] using ih _ h1

/-- C8: the text scale is clamped to `[5, 65]`.  From a whole-number text scale in
`[5, 65]` every sequence of key events leaves it in `[5, 65]`; a pressed Ctrl+] at 65 and
a pressed Ctrl+[ at 5 leave it unchanged, below 65 Ctrl+] adds exactly one and above 5
Ctrl+[ subtracts exactly one; from the startup state, repeated increases from 64 stop
at 65 and repeated decreases from 6 stop at 5. -/
theorem textSize_clamped (toLower : String → String) (allEntries : List iconEntry) :
    (∀ (ib : iconBrowser) (keys : List keyEvent),
      5 ≤ ib.thTextSize → ib.thTextSize ≤ 65 →
        5 ≤ (handleKeyEvents toLower allEntries ib keys).thTextSize ∧
          (handleKeyEvents toLower allEntries ib keys).thTextSize ≤ 65) ∧
    (∀ ib : iconBrowser, ib.thTextSize = 65 →
      (handleKeyEvent toLower allEntries ib (pressed "]" ModCtrl)).thTextSize = 65) ∧
    (∀ ib : iconBrowser, ib.thTextSize = 5 →
      (handleKeyEvent toLower allEntries ib (pressed "[" ModCtrl)).thTextSize = 5) ∧
    (∀ ib : iconBrowser, ib.thTextSize < 65 →
      (handleKeyEvent toLower allEntries ib (pressed "]" ModCtrl)).thTextSize
        = ib.thTextSize + 1) ∧
    (∀ ib : iconBrowser, 5 < ib.thTextSize →
      (handleKeyEvent toLower allEntries ib (pressed "[" ModCtrl)).thTextSize
        = ib.thTextSize - 1) ∧
    (∀ n : Nat, 1 ≤ n →
      (handleKeyEvents toLower allEntries { initBrowser with thTextSize := 64 }
        (List.replicate n (pressed "]" ModCtrl))).thTextSize = 65) ∧
    (∀ n : Nat, 1 ≤ n →
      (handleKeyEvents toLower allEntries { initBrowser with thTextSize := 6 }
        (List.replicate n (pressed "[" ModCtrl))).thTextSize = 5) ∧
    initBrowser.thTextSize = 18 := by
  have up : ∀ ib : iconBrowser,
      (handleKeyEvent toLower allEntries ib (pressed "]" ModCtrl)).thTextSize
        = if ib.thTextSize < 65 then ib.thTextSize + 1 else ib.thTextSize := by
    intro ib
    simp only [handleKeyEvent, pressed, ModCtrl]
    split_ifs <;> simp_all
  have down : ∀ ib : iconBrowser,
      (handleKeyEvent toLower allEntries ib (pressed "[" ModCtrl)).thTextSize
        = if ib.thTextSize > 5 then ib.thTextSize - 1 else ib.thTextSize := by
    intro ib
    simp only [handleKeyEvent, pressed, ModCtrl]
    split_ifs <;> simp_all
  have upAt : ∀ (n : Nat) (ib : iconBrowser), ib.thTextSize = 65 →
      (handleKeyEvents toLower allEntries ib
        (List.replicate n (pressed "]" ModCtrl))).thTextSize = 65 := by
    intro n
    induction n with
    | zero => intro ib h; simpa [handleKeyEvents] using h
    | succ k ih =>
      intro ib h
      have h1 := up ib
      rw [h] at h1
      simp only [handleKeyEvents, List.replicate_succ, List.foldl_cons]
      exact ih _ (by simpa using h1)
  have downAt : ∀ (n : Nat) (ib : iconBrowser), ib.thTextSize = 5 →
      (handleKeyEvents toLower allEntries ib
        (List.replicate n (pressed "[" ModCtrl))).thTextSize = 5 := by
    intro n
    induction n with
    | zero => intro ib h; simpa [handleKeyEvents] using h
    | succ k ih =>
      intro ib h
      have h1 := down ib
      rw [h] at h1
      simp only [handleKeyEvents, List.replicate_succ, List.foldl_cons]
      exact ih _ (by simpa using h1)
  refine ⟨?_, ?_, ?_, ?_, ?_, ?_, ?_, rfl⟩
  · intro ib keys h1 h2
    exact handleKeyEvents_textSize_range toLower allEntries keys ib ⟨h1, h2⟩
  · intro ib h
    rw [up ib, h]; simp
  · intro ib h
    rw [down ib, h]; simp
  · intro ib h
    rw [up ib, if_pos h]
  · intro ib h
    rw [down ib, if_pos h]
  · intro n hn
    obtain ⟨k, rfl⟩ : ∃ k, n = k + 1 := ⟨n - 1, by omega⟩
    simp only [handleKeyEvents, List.replicate_succ, List.foldl_cons]
    exact upAt k _ (by rw [up]; simp)
  · intro n hn
    obtain ⟨k, rfl⟩ : ∃ k, n = k + 1 := ⟨n - 1, by omega⟩
    simp only [handleKeyEvents, List.replicate_succ, List.foldl_cons]
    exact downAt k _ (by rw [down]; simp)

/-- Instance of C8: from the startup scale 18, fifty pressed Ctrl+] followed by a
released one stay inside `[5, 65]`. -/
theorem textSize_clamped_witness :
    (5 : Int) ≤ initBrowser.thTextSize ∧ initBrowser.thTextSize ≤ 65 ∧
    5 ≤ (handleKeyEvents asciiToLower demoEntries initBrowser
          (List.replicate 50 (pressed "]" ModCtrl) ++
            [{ name := "]", modifiers := ModCtrl, state := keyState.Release }])).thTextSize ∧
    (handleKeyEvents asciiToLower demoEntries initBrowser
          (List.replicate 50 (pressed "]" ModCtrl) ++
            [{ name := "]", modifiers := ModCtrl, state := keyState.Release }])).thTextSize
      ≤ 65 :=
  ⟨by decide, by decide,
   (textSize_clamped asciiToLower demoEntries).1 initBrowser _ (by decide) (by decide)⟩

/-! ## Row count -/

/-- Ceiling division on naturals, as quotient plus one when there is a remainder. -/
theorem ceil_div_eq (n k : Nat) (hk : 1 ≤ k) :
    (n + k - 1) / k = if n % k ≠ 0 then n / k + 1 else n / k := by
  have hdm := Nat.div_add_mod n k
  have hlt := Nat.mod_lt n (show k > 0 by omega)
  have hk0 : 0 < k := by omega
  have e : n + k - 1 = (n % k + k - 1) + k * (n / k) := by omega
  rw [e, Nat.add_mul_div_left _ _ hk0]
  split_ifs with h
  · have e2 : n % k + k - 1 = (n % k - 1) + k * 1 := by omega
    rw [e2, Nat.add_mul_div_left _ _ hk0, Nat.div_eq_of_lt (by omega)]
    omega
  · have e2 : n % k = 0 := by omega
    rw [e2, Nat.div_eq_of_lt (by omega)]
    omega

/-- With at least one column, `numRows` does not panic and is the ceiling of
`len / numPerRow`. -/
theorem numRows_eq_ceil (n k : Nat) (hk : 1 ≤ k) :
    numRows (n : Int) (k : Int) = some (((n + k - 1) / k : Nat) : Int) := by
  have hk0 : (k : Int) ≠ 0 := by omega
  have hq : (n : Int).tdiv (k : Int) = ((n / k : Nat) : Int) := (Int.ofNat_tdiv n k).symm
  have hr : (n : Int).tmod (k : Int) = ((n % k : Nat) : Int) := (Int.ofNat_tmod n k).symm
  simp only [numRows, goDiv, goMod, if_neg hk0, Option.bind_eq_bind, Option.some_bind, hq, hr]
  rw [ceil_div_eq n k hk]
  have hiff : (((n % k : Nat) : Int) ≠ 0) ↔ (n % k ≠ 0) := by exact_mod_cast Iff.rfl
  simp only [hiff]
  split_ifs <;> simp

/-- The ceiling of `n / k` is at most `n`. -/
theorem ceil_div_le (n k : Nat) (hk : 1 ≤ k) : (n + k - 1) / k ≤ n := by
  rw [Nat.div_le_iff_le_mul_add_pred (by omega)]
  have : n ≤ k * n := Nat.le_mul_of_pos_left n (by omega)
  omega

/-- C9: for every matched-index list and every column count `c ≥ 1`, a pressed End key
without modifiers sets the first-row index of the scroll position to `len(m) + 1`, and
that value is strictly greater than the row count `ceil(len(m) / c)` which `layResults`
hands to the list. -/
theorem end_key_past_last_row (toLower : String → String) (allEntries : List iconEntry)
    (ib : iconBrowser) (c : Int) (hc : 1 ≤ c) :
    (handleKeyEvent toLower allEntries ib (pressed NameEnd 0)).position.first
      = sliceLen ib.matchedIndices + 1 ∧
    ∃ rows : Int, numRows (sliceLen ib.matchedIndices) c = some rows ∧
      rows = (((ib.matchedIndices.getD []).length + c.toNat - 1) / c.toNat : Nat) ∧
      rows < (handleKeyEvent toLower allEntries ib (pressed NameEnd 0)).position.first := by
  have hfirst : (handleKeyEvent toLower allEntries ib (pressed NameEnd 0)).position.first
      = sliceLen ib.matchedIndices + 1 := by
    simp [handleKeyEvent, pressed, NameEnd, NameHome, NamePageDown, NamePageUp, NameEscape,
      ModCtrl]
  refine ⟨hfirst, ?_⟩
  obtain ⟨k, rfl⟩ : ∃ k : Nat, c = (k : Int) := ⟨c.toNat, by omega⟩
  have hk : 1 ≤ k := by omega
  refine ⟨_, numRows_eq_ceil _ k hk, by simp, ?_⟩
  rw [hfirst]
  have := ceil_div_le (ib.matchedIndices.getD []).length k hk
  simp only [sliceLen]
  omega

/-- Instance of C9: ten matches in a single column. -/
theorem end_key_past_last_row_witness :
    (1 : Int) ≤ 1 ∧
    (handleKeyEvent asciiToLower demoEntries
        { initBrowser with matchedIndices := some (List.range 10) }
        (pressed NameEnd 0)).position.first = 11 ∧
    numRows 10 1 = some 10 :=
  ⟨by decide,
   (end_key_past_last_row asciiToLower demoEntries
      { initBrowser with matchedIndices := some (List.range 10) } 1 (by decide)).1,
   by decide⟩

/-! ## Column count -/

/-- C6: for every viewport width `w ≥ 0` and icon pixel size `s ≥ 1`, the column count
computed by `ensure` is `max(1, w / (s*4))` with integer division and is never `0`;
whenever `ensure` recomputes the grid with that icon size it stores this value in
`numPerRow`; width 900 with icon size 48 (the size at the startup text scale) gives 4
columns and width 50 gives 1. -/
theorem gridColumns_eq_max (w s : Int) (hw : 0 ≤ w) (hs : 1 ≤ s) :
    gridColumns w s = some (max 1 (w / (s * 4))) ∧
    1 ≤ max 1 (w / (s * 4)) ∧
    (∀ ib : iconBrowser, (ib.textSize ≠ ib.thTextSize ∨ ib.maxWidth ≠ w) →
      iconSizeOf ib.thTextSize = s →
      ∃ ib1, ensure ib w = some ib1 ∧ ib1.numPerRow = max 1 (w / (s * 4)) ∧
        ib1.numPerRow ≠ 0 ∧ ib1.iconSize = s ∧ ib1.maxWidth = w ∧
        ib1.textSize = ib.thTextSize) ∧
    gridColumns 900 48 = some 4 ∧ gridColumns 50 48 = some 1 ∧
    (ensure initBrowser 900).map (fun ib => (ib.iconSize, ib.numPerRow)) = some (48, 4) ∧
    (ensure initBrowser 50).map (fun ib => (ib.iconSize, ib.numPerRow)) = some (48, 1) := by
  have hs4 : s * 4 ≠ 0 := by omega
  have hdiv : w.tdiv (s * 4) = w / (s * 4) := Int.tdiv_eq_ediv hw (by omega)
  have hnn : 0 ≤ w / (s * 4) := Int.ediv_nonneg hw (by omega)
  have hcols : gridColumns w s = some (max 1 (w / (s * 4))) := by
    simp only [gridColumns, goDiv, if_neg hs4, Option.bind_eq_bind, Option.some_bind, hdiv]
    congr 1
    generalize w / (s * 4) = n at hnn
    split_ifs with h
    · subst h; rfl
    · omega
  refine ⟨hcols, le_max_left _ _, ?_, by decide, by decide, by decide, by decide⟩
  intro ib hre hicon
  refine ⟨{ ib with textSize := ib.thTextSize, iconSize := s, maxWidth := w,
                    numPerRow := max 1 (w / (s * 4)) }, ?_, rfl, ?_, rfl, rfl, rfl⟩
  · simp only [ensure, if_pos hre, hicon, hcols, Option.bind_eq_bind, Option.some_bind]
  · show max 1 (w / (s * 4)) ≠ 0
    omega

/-- Instance of C6: width 1000 at icon size 30 gives 8 columns. -/
theorem gridColumns_eq_max_witness :
    (0 : Int) ≤ 1000 ∧ (1 : Int) ≤ 30 ∧ gridColumns 1000 30 = some (max 1 (1000 / (30 * 4))) ∧
    max (1 : Int) (1000 / (30 * 4)) = 8 :=
  ⟨by decide, by decide, (gridColumns_eq_max 1000 30 (by decide) (by decide)).1, by decide⟩

/-! ## Sequencing guard -/

/-- C2: submit `q1`, then `q2`, then receive the response of `q2` and after it the
response of `q1`.  The response of `q2` is applied (`matchedIndices` becomes the index
list of `q2`, the scroll position goes to row 0, offset 0) and the response of `q1` is
discarded, so after both receipts the result set is that of `q2`.  This holds from
every state, in particular when no other response is in flight. -/
theorem last_query_wins (toLower : String → String) (allEntries : List iconEntry)
    (ib : iconBrowser) (q1 q2 : String) :
    (guardRun toLower allEntries ib [guardStep.submit q1, guardStep.submit q2]).inflight
      = ib.inflight ++
        [{ indices := searchScan toLower allEntries q1, seq := ib.searchCurSeq + 1 },
         { indices := searchScan toLower allEntries q2, seq := ib.searchCurSeq + 2 }] ∧
    (guardRun toLower allEntries ib [guardStep.submit q1, guardStep.submit q2,
        guardStep.deliver (ib.inflight.length + 1)]).matchedIndices
      = searchScan toLower allEntries q2 ∧
    (guardRun toLower allEntries ib [guardStep.submit q1, guardStep.submit q2,
        guardStep.deliver (ib.inflight.length + 1)]).position.first = 0 ∧
    (guardRun toLower allEntries ib [guardStep.submit q1, guardStep.submit q2,
        guardStep.deliver (ib.inflight.length + 1)]).position.offset = 0 ∧
    guardRun toLower allEntries ib [guardStep.submit q1, guardStep.submit q2,
        guardStep.deliver (ib.inflight.length + 1), guardStep.deliver ib.inflight.length]
      = { guardRun toLower allEntries ib [guardStep.submit q1, guardStep.submit q2,
            guardStep.deliver (ib.inflight.length + 1)] with inflight := ib.inflight } ∧
    (guardRun toLower allEntries ib [guardStep.submit q1, guardStep.submit q2,
        guardStep.deliver (ib.inflight.length + 1),
        guardStep.deliver ib.inflight.length]).matchedIndices
      = searchScan toLower allEntries q2 := by
  have h1 : (ib.inflight ++
      [({ indices := searchScan toLower allEntries q1, seq := ib.searchCurSeq + 1 } :
          searchResponse),
       { indices := searchScan toLower allEntries q2, seq := ib.searchCurSeq + 1 + 1 }])[
        ib.inflight.length + 1]?
      = some { indices := searchScan toLower allEntries q2, seq := ib.searchCurSeq + 1 + 1 } := by
    rw [List.getElem?_append_right (by omega)]
    simp
  have h2 : (ib.inflight ++
      [({ indices := searchScan toLower allEntries q1, seq := ib.searchCurSeq + 1 } :
          searchResponse)])[ib.inflight.length]?
      = some { indices := searchScan toLower allEntries q1, seq := ib.searchCurSeq + 1 } := by
    rw [List.getElem?_append_right (by omega)]
    simp
  have h3 : (ib.inflight ++
      [({ indices := searchScan toLower allEntries q1, seq := ib.searchCurSeq + 1 } :
          searchResponse),
       { indices := searchScan toLower allEntries q2, seq := ib.searchCurSeq + 1 + 1 }]).eraseIdx
        (ib.inflight.length + 1)
      = ib.inflight ++
        [{ indices := searchScan toLower allEntries q1, seq := ib.searchCurSeq + 1 }] := by
    rw [List.eraseIdx_append_of_length_le (by omega)]
    simp
  have h4 : (ib.inflight ++
      [({ indices := searchScan toLower allEntries q1, seq := ib.searchCurSeq + 1 } :
          searchResponse)]).eraseIdx ib.inflight.length = ib.inflight := by
    rw [List.eraseIdx_append_of_length_le (by omega)]
    simp
  simp only [guardRun, List.foldl_cons, List.foldl_nil, guardNext, submit, runSearch, deliver,
    List.append_assoc, List.singleton_append, h1, h3, recvResponse, scrollResultListTop,
    if_true, h2, h4]
  simp

/-- C1: evaluation of the sequencing guard on the interleaving submit a, submit b,
receive the response of b, submit c, receive the response of a, receive the response
of c (every run delivers exactly once).  Applying the response of b resets
`searchCurSeq` to 0, so the run for c is tagged 1 like the run for a; the response of
the superseded run a is then applied while c is the most recent query, and the
response of c itself is discarded. -/
theorem superseded_response_applied :
    (guardRun asciiToLower demoEntries initBrowser
        [guardStep.submit "a", guardStep.submit "b"]).inflight
      = [{ indices := some [0, 2], seq := 1 }, { indices := some [1], seq := 2 }] ∧
    (guardRun asciiToLower demoEntries initBrowser
        [guardStep.submit "a", guardStep.submit "b", guardStep.deliver 1, guardStep.submit "c"]).inflight
      = [{ indices := some [0, 2], seq := 1 }, { indices := some [2], seq := 1 }] ∧
    (guardRun asciiToLower demoEntries initBrowser
        [guardStep.submit "a", guardStep.submit "b", guardStep.deliver 1, guardStep.submit "c",
         guardStep.deliver 0]).matchedIndices = some [0, 2] ∧
    (guardRun asciiToLower demoEntries initBrowser
        [guardStep.submit "a", guardStep.submit "b", guardStep.deliver 1, guardStep.submit "c",
         guardStep.deliver 0]).searchText = "c" ∧
    (guardRun asciiToLower demoEntries initBrowser
        [guardStep.submit "a", guardStep.submit "b", guardStep.deliver 1, guardStep.submit "c",
         guardStep.deliver 0, guardStep.deliver 0]).matchedIndices = some [0, 2] ∧
    (guardRun asciiToLower demoEntries initBrowser
        [guardStep.submit "a", guardStep.submit "b", guardStep.deliver 1, guardStep.submit "c",
         guardStep.deliver 0, guardStep.deliver 0]).inflight = [] ∧
    searchScan asciiToLower demoEntries "a" = some [0, 2] ∧
    searchScan asciiToLower demoEntries "c" = some [2] := by
  decide

/-! ## Empty query -/

/-- C4, as stated, fails: after the response to an explicitly submitted empty query
has been applied (it is the only response, its index list is nil and `searchCurSeq` is
back to 0), the next layout pass displays all three catalog entries, not zero. -/
theorem empty_query_shows_all_counterexample :
    (run asciiToLower demoEntries (emptyQuerySession.take 3)).map
        (fun ib => (ib.matchedIndices, ib.searchCurSeq, ib.inflight)) = some (none, 0, []) ∧
    (run asciiToLower demoEntries emptyQuerySession).map (fun ib => ib.matchedIndices)
      = some (some [0, 1, 2]) ∧
    ¬ ((run asciiToLower demoEntries emptyQuerySession).map
        (fun ib => (ib.matchedIndices.getD []).length) = some 0) := by
  decide

/-- C4, amended: `layout` displays all catalog entries whenever `matchedIndices` is nil
when it runs.  That is the case at startup, and it is the case again once the response
to a submitted query whose lowercased text is empty has been applied: that response
carries a nil index list, so the next layout pass displays every catalog entry.  A
non-empty lowercased query carries a non-nil list, which `layout` displays as it is. -/
theorem empty_query_shows_all (toLower : String → String) (allEntries : List iconEntry)
    (ib : iconBrowser) (q : String) (hq : toLower q = "") :
    (layoutBegin toLower allEntries initBrowser).matchedIndices
      = some (List.range allEntries.length) ∧
    (deliver (submit toLower allEntries ib q) ib.inflight.length).matchedIndices = none ∧
    (layoutBegin toLower allEntries
      (deliver (submit toLower allEntries ib q) ib.inflight.length)).matchedIndices
      = some (List.range allEntries.length) ∧
    (∀ q1 : String, toLower q1 ≠ "" →
      ∃ l, (deliver (submit toLower allEntries ib q1) ib.inflight.length).matchedIndices
          = some l ∧
        (layoutBegin toLower allEntries
          (deliver (submit toLower allEntries ib q1) ib.inflight.length)).matchedIndices
          = some l) := by
  have hget : ∀ r : searchResponse, (ib.inflight ++ [r])[ib.inflight.length]? = some r := by
    intro r
    rw [List.getElem?_append_right (by omega)]
    simp
  have hdel : ∀ q0 : String,
      (deliver (submit toLower allEntries ib q0) ib.inflight.length).matchedIndices
        = searchScan toLower allEntries q0 := by
    intro q0
    simp [submit, runSearch, deliver, hget, recvResponse, scrollResultListTop]
  have hdef : ∀ s : iconBrowser, s.matchedIndices = none →
      (layoutBegin toLower allEntries s).matchedIndices
        = some (List.range allEntries.length) := by
    intro s hs
    unfold layoutBegin
    by_cases hc : s.searchChanged <;> simp [hc, runSearch, hs, allIndices]
  have hkeep : ∀ (s : iconBrowser) (l : List Nat), s.matchedIndices = some l →
      (layoutBegin toLower allEntries s).matchedIndices = some l := by
    intro s l hs
    unfold layoutBegin
    by_cases hc : s.searchChanged <;> simp [hc, runSearch, hs]
  have hnone : searchScan toLower allEntries q = none := by
    simp [searchScan, hq]
  refine ⟨hdef _ rfl, ?_, ?_, ?_⟩
  · rw [hdel, hnone]
  · exact hdef _ (by rw [hdel, hnone])
  · intro q1 hq1
    have hsome : searchScan toLower allEntries q1
        = some (scanLoop toLower (toLower q1) allEntries 0 []) := by
      simp [searchScan, hq1]
    exact ⟨_, by rw [hdel, hsome], hkeep _ _ (by rw [hdel, hsome])⟩

/-- Instance of the amended C4 on the three-entry catalog: after the empty query all
three entries are displayed. -/
theorem empty_query_shows_all_witness :
    asciiToLower "" = "" ∧
    (layoutBegin asciiToLower demoEntries
      (deliver (submit asciiToLower demoEntries initBrowser "") 0)).matchedIndices
      = some [0, 1, 2] :=
  ⟨by decide, (empty_query_shows_all asciiToLower demoEntries initBrowser "" (by decide)).2.2.1⟩

/-! ## The scan result -/

/-- The test `containsChars` decides the substring (infix) relation. -/
theorem containsChars_iff (sub : List Char) :
    ∀ s : List Char, containsChars sub s = true ↔ sub <:+: s := by
  intro s
  induction s with
  | nil => simp [containsChars]
  | cons c t ih =>
    simp only [containsChars, Bool.or_eq_true, ih, List.infix_cons_iff,
      List.isPrefixOf_iff_prefix]

/-- The match test of the scan, in terms of substrings. -/
theorem entryMatches_iff (toLower : String → String) (input : String) (e : iconEntry) :
    entryMatches toLower input e = true ↔
      (input.data <:+: e.key.data ∨ input.data <:+: (toLower e.name).data) := by
  simp only [entryMatches, strContains, Bool.or_eq_true, containsChars_iff]

/-- Membership in the result of the scan loop. -/
theorem scanLoop_mem (toLower : String → String) (input : String) :
    ∀ (es : List iconEntry) (i : Nat) (acc : List Nat) (j : Nat),
      j ∈ scanLoop toLower input es i acc ↔
        (j ∈ acc ∨ ∃ e, i ≤ j ∧ es[j - i]? = some e ∧ entryMatches toLower input e = true) := by
  intro es
  induction es with
  | nil => intro i acc j; simp [scanLoop]
  | cons e rest ih =>
    intro i acc j
    have hstep : ∀ e1 : iconEntry,
        (i + 1 ≤ j ∧ rest[j - (i + 1)]? = some e1 ∧ entryMatches toLower input e1 = true) ↔
        (i < j ∧ i ≤ j ∧ (e :: rest)[j - i]? = some e1 ∧
          entryMatches toLower input e1 = true) := by
      intro e1
      constructor
      · rintro ⟨h1, h2, h3⟩
        refine ⟨by omega, by omega, ?_, h3⟩
        have : j - i = (j - (i + 1)) + 1 := by omega
        rw [this, List.getElem?_cons_succ]
        exact h2
      · rintro ⟨h0, _, h2, h3⟩
        refine ⟨by omega, ?_, h3⟩
        have : j - i = (j - (i + 1)) + 1 := by omega
        rw [this, List.getElem?_cons_succ] at h2
        exact h2
    have hhead : ∀ e1 : iconEntry, j = i →
        ((e :: rest)[j - i]? = some e1 ↔ e = e1) := by
      intro e1 hj
      subst hj
      simp
    unfold scanLoop
    split_ifs with hm
    · rw [ih]
      constructor
      · rintro (h | ⟨e1, h⟩)
        · rcases List.mem_append.mp h with h | h
          · exact Or.inl h
          · have hj : j = i := by simpa using h
            exact Or.inr ⟨e, by omega, (hhead e hj).mpr rfl, hm⟩
        · exact Or.inr ⟨e1, ((hstep e1).mp h).2⟩
      · rintro (h | ⟨e1, h1, h2, h3⟩)
        · exact Or.inl (List.mem_append.mpr (Or.inl h))
        · by_cases hj : j = i
          · exact Or.inl (List.mem_append.mpr (Or.inr (by simp [hj])))
          · exact Or.inr ⟨e1, (hstep e1).mpr ⟨by omega, h1, h2, h3⟩⟩
    · rw [ih]
      constructor
      · rintro (h | ⟨e1, h⟩)
        · exact Or.inl h
        · exact Or.inr ⟨e1, ((hstep e1).mp h).2⟩
      · rintro (h | ⟨e1, h1, h2, h3⟩)
        · exact Or.inl h
        · by_cases hj : j = i
          · have := (hhead e1 hj).mp h2
            subst this
            exact absurd h3 hm
          · exact Or.inr ⟨e1, (hstep e1).mpr ⟨by omega, h1, h2, h3⟩⟩

/-- The scan loop keeps its result strictly ascending. -/
theorem scanLoop_sorted (toLower : String → String) (input : String) :
    ∀ (es : List iconEntry) (i : Nat) (acc : List Nat),
      acc.Sorted (· < ·) → (∀ j ∈ acc, j < i) →
        (scanLoop toLower input es i acc).Sorted (· < ·) := by
  intro es
  induction es with
  | nil => intro i acc h _; simpa [scanLoop] using h
  | cons e rest ih =>
    intro i acc hs hb
    unfold scanLoop
    split_ifs with hm
    · apply ih
      · unfold List.Sorted
        rw [List.pairwise_append]
        refine ⟨hs, List.pairwise_singleton _ _, ?_⟩
        intro a ha b hb1
        have : b = i := by simpa using hb1
        subst this
        exact hb a ha
      · intro j hj
        rcases List.mem_append.mp hj with h | h
        · have := hb j h; omega
        · have : j = i := by simpa using h
          omega
    · apply ih _ _ hs
      intro j hj
      have := hb j hj
      omega

/-- C3: for every catalog and every query text whose lowercased form `lq` is
non-empty, the index list produced by the search scan is strictly ascending, without
repeats, and holds exactly the catalog indices `i` such that `lq` is a substring of the
key of entry `i` or of the lowercased name of entry `i`; with names Alert, Box,
Calendar (keys their lowercase forms) and query al the result is `[0, 2]`. -/
theorem searchScan_spec (toLower : String → String) (allEntries : List iconEntry)
    (text : String) (h : toLower text ≠ "") :
    (∃ l : List Nat, searchScan toLower allEntries text = some l ∧
      l.Sorted (· < ·) ∧ l.Nodup ∧
      ∀ i : Nat, i ∈ l ↔ ∃ e, allEntries[i]? = some e ∧
        ((toLower text).data <:+: e.key.data ∨
          (toLower text).data <:+: (toLower e.name).data)) ∧
    searchScan asciiToLower demoEntries "al" = some [0, 2] := by
  refine ⟨⟨scanLoop toLower (toLower text) allEntries 0 [], ?_, ?_, ?_, ?_⟩, by decide⟩
  · simp [searchScan, h]
  · exact scanLoop_sorted toLower _ allEntries 0 [] List.sorted_nil (by simp)
  · exact (scanLoop_sorted toLower _ allEntries 0 [] List.sorted_nil (by simp)).nodup
  · intro i
    rw [scanLoop_mem]
    simp only [List.not_mem_nil, false_or, Nat.zero_le, true_and, Nat.sub_zero,
      entryMatches_iff]

/-- Instance of C3: the query AL on the three-entry catalog. -/
theorem searchScan_spec_witness :
    asciiToLower "AL" ≠ "" ∧
    ∃ l : List Nat, searchScan asciiToLower demoEntries "AL" = some l ∧
      l.Sorted (· < ·) ∧ l.Nodup ∧
      ∀ i : Nat, i ∈ l ↔ ∃ e, demoEntries[i]? = some e ∧
        ((asciiToLower "AL").data <:+: e.key.data ∨
          (asciiToLower "AL").data <:+: (asciiToLower e.name).data) :=
  ⟨by decide, (searchScan_spec asciiToLower demoEntries "AL" (by decide)).1⟩

/-! ## Rows of the result grid -/

/-- The row loop renders the next `fuel` entries of the matched list, or fewer when the
list ends first. -/
theorem rowLoop_eq (m : List Nat) (k : Nat) (hk : 1 ≤ k) (maxX : Int) (f : Nat) :
    ∀ (fuel j : Nat), fuel + j = k →
      rowLoop m (k : Int) maxX (f : Int) fuel (j : Int)
        = some ((m.drop (f + j)).take fuel) := by
  intro fuel
  induction fuel with
  | zero => intro j _; simp [rowLoop]
  | succ fuel ih =>
    intro j hj
    have hlt : (j : Int) < (k : Int) := by omega
    have hk0 : (k : Int) ≠ 0 := by omega
    unfold rowLoop
    rw [if_pos hlt]
    by_cases hlen : m.length ≤ f + j
    · have hge : ((f : Int) + (j : Int)) ≥ (m.length : Int) := by omega
      simp only [hge, if_true]
      rw [List.drop_eq_nil_of_le hlen]
      simp
    · have hlen1 : f + j < m.length := by omega
      have hge : ¬ ((f : Int) + (j : Int)) ≥ (m.length : Int) := by omega
      have hneg : ¬ ((f : Int) + (j : Int)) < 0 := by omega
      have hidx : ((f : Int) + (j : Int)).toNat = f + j := by omega
      have hnext : rowLoop m (k : Int) maxX (f : Int) fuel ((j : Int) + 1)
          = some ((m.drop (f + (j + 1))).take fuel) := by
        have := ih (j + 1) (by omega)
        simpa using this
      simp only [hge, hneg, if_false, hidx, List.getElem?_eq_getElem hlen1, layEntry, goDiv,
        if_neg hk0, hnext, Option.bind_eq_bind, Option.some_bind]
      rw [List.drop_eq_getElem_cons hlen1, List.take_succ_cons]
      rfl

/-- The row closure renders the slice of `numPerRow` entries starting at
`i * numPerRow`. -/
theorem layRow_eq (m : List Nat) (k : Nat) (hk : 1 ≤ k) (maxX : Int) (i : Nat) :
    layRow m (k : Int) maxX i = some ((m.drop (i * k)).take k) := by
  have hk0 : (k : Int) ≠ 0 := by omega
  have hfirst : (i : Int) * (k : Int) = ((i * k : Nat) : Int) := by push_cast; rfl
  have h := rowLoop_eq m k hk maxX (i * k) k 0 (by omega)
  simp only [layRow, goDiv, if_neg hk0, Option.bind_eq_bind, Option.some_bind, hfirst,
    Int.toNat_ofNat]
  simpa using h

/-- A successful function maps over a list inside `Option`. -/
theorem mapM_eq_some_map {α β : Type} (f : α → Option β) (g : α → β) :
    ∀ l : List α, (∀ a ∈ l, f a = some (g a)) → l.mapM f = some (l.map g) := by
  intro l
  induction l with
  | nil => intro _; rfl
  | cons a t ih =>
    intro h
    have h1 := h a (List.mem_cons_self a t)
    have h2 := ih (fun b hb => h b (List.mem_cons_of_mem a hb))
    rw [List.mapM_cons, h1, h2]
    rfl

/-- Consecutive slices of width `k` that cover the list concatenate to the list. -/
theorem flatten_slices (k : Nat) :
    ∀ (r : Nat) (m : List Nat), m.length ≤ r * k →
      ((List.range r).map (fun i => (m.drop (i * k)).take k)).flatten = m := by
  intro r
  induction r with
  | zero =>
    intro m h
    have : m = [] := List.eq_nil_of_length_eq_zero (by omega)
    simp [this]
  | succ r ih =>
    intro m h
    have hlen : (m.drop k).length ≤ r * k := by
      rw [List.length_drop]
      have : (r + 1) * k = r * k + k := by ring
      omega
    have hrec := ih (m.drop k) hlen
    have hfun : (fun i => ((m.drop k).drop (i * k)).take k)
        = (fun i => (m.drop ((i + 1) * k)).take k) := by
      funext i
      rw [List.drop_drop]
      have : k + i * k = (i + 1) * k := by ring
      rw [this]
    rw [hfun] at hrec
    rw [List.range_succ_eq_map, List.map_cons, List.flatten_cons, List.map_map]
    have hcomp : ((fun i => (m.drop (i * k)).take k) ∘ Nat.succ)
        = (fun i => (m.drop ((i + 1) * k)).take k) := by
      funext i
      rfl
    rw [hcomp, hrec]
    simp

/-- A row index below the ceiling of `n / k` starts inside the list. -/
theorem row_start_lt (n k i : Nat) (hk : 1 ≤ k) (hi : i < (n + k - 1) / k) : i * k < n := by
  have h1 : (i + 1) * k ≤ n + k - 1 := by
    have := (Nat.le_div_iff_mul_le (show 0 < k by omega)).mp (show i + 1 ≤ (n + k - 1) / k from hi)
    exact this
  have : (i + 1) * k = i * k + k := by ring
  omega

/-- C7: for every matched-index list `m` and every column count `c ≥ 1`, `layResults`
lays out exactly `ceil(len(m) / c)` rows (10 matches with 4 columns give 3 rows); row
`i` renders exactly the entries `m[i*c], ..., m[min((i+1)*c, len(m)) - 1]` in that
order; every row is non-empty and holds at most `c` entries; the rows concatenated in
row order equal `m`. -/
theorem layResults_rows (ib : iconBrowser) (maxX : Int) (m : List Nat) (c : Int)
    (hc : 1 ≤ c) :
    (∃ rows : List (List Nat),
      layResults { ib with matchedIndices := some m, numPerRow := c } maxX = some rows ∧
      numRows (m.length : Int) c = some (rows.length : Int) ∧
      rows.length = (m.length + c.toNat - 1) / c.toNat ∧
      (∀ (i : Nat) (hi : i < rows.length),
        rows[i] = (m.drop (i * c.toNat)).take (min ((i + 1) * c.toNat) m.length - i * c.toNat) ∧
        rows[i] ≠ [] ∧ rows[i].length ≤ c.toNat ∧
        rows[i].length = min ((i + 1) * c.toNat) m.length - i * c.toNat ∧
        ∀ j : Nat, j < rows[i].length → rows[i][j]? = m[i * c.toNat + j]?) ∧
      rows.flatten = m) ∧
    numRows 10 4 = some 3 := by
  refine ⟨?_, by decide⟩
  obtain ⟨k, rfl⟩ : ∃ k : Nat, c = (k : Int) := ⟨c.toNat, by omega⟩
  have hk : 1 ≤ k := by omega
  simp only [Int.toNat_ofNat]
  have hrows := numRows_eq_ceil m.length k hk
  have hlay : layResults { ib with matchedIndices := some m, numPerRow := (k : Int) } maxX
      = some ((List.range ((m.length + k - 1) / k)).map
          (fun i => (m.drop (i * k)).take k)) := by
    simp only [layResults, Option.getD_some, hrows, Option.bind_eq_bind, Option.some_bind,
      Int.toNat_ofNat]
    exact mapM_eq_some_map _ _ _ (fun i _ => layRow_eq m k hk maxX i)
  refine ⟨_, hlay, ?_, ?_, ?_, ?_⟩
  · simpa using hrows
  · simp
  · intro i hi
    have hi1 : i < (m.length + k - 1) / k := by simpa using hi
    have hstart := row_start_lt m.length k i hk hi1
    have hsucc : (i + 1) * k = i * k + k := by ring
    have hrow : ((List.range ((m.length + k - 1) / k)).map
        (fun i => (m.drop (i * k)).take k))[i] = (m.drop (i * k)).take k := by
      simp
    have hlenrow : ((m.drop (i * k)).take k).length = min ((i + 1) * k) m.length - i * k := by
      rw [List.length_take, List.length_drop]
      omega
    rw [hrow]
    refine ⟨?_, ?_, ?_, hlenrow, ?_⟩
    · have hd : (m.drop (i * k)).length = m.length - i * k := List.length_drop _ _
      rw [List.take_eq_take, hd]
      omega
    · intro hnil
      have := congrArg List.length hnil
      rw [hlenrow] at this
      simp only [List.length_nil] at this
      omega
    · rw [hlenrow]
      omega
    · intro j hj
      rw [hlenrow] at hj
      rw [List.getElem?_take_of_lt (by omega), List.getElem?_drop]
  · apply flatten_slices
    have h1 := Nat.div_add_mod (m.length + k - 1) k
    have h2 := Nat.mod_lt (m.length + k - 1) (show k > 0 by omega)
    have h3 : (m.length + k - 1) / k * k = k * ((m.length + k - 1) / k) := by ring
    omega

/-- Instance of C7: five matches in two columns give the rows `[5,6]`, `[7,8]`, `[9]`. -/
theorem layResults_rows_witness :
    (1 : Int) ≤ 2 ∧
    layResults { initBrowser with matchedIndices := some [5, 6, 7, 8, 9], numPerRow := 2 } 900
      = some [[5, 6], [7, 8], [9]] ∧
    ∃ rows : List (List Nat),
      layResults { initBrowser with matchedIndices := some [5, 6, 7, 8, 9], numPerRow := 2 } 900
        = some rows ∧ rows.flatten = [5, 6, 7, 8, 9] :=
  ⟨by decide, by decide,
   let ⟨rows, h1, _, _, _, h5⟩ :=
     (layResults_rows initBrowser 900 [5, 6, 7, 8, 9] 2 (by decide)).1
   ⟨rows, h1, h5⟩⟩

/-! ## Layout never divides by zero -/

/-- The constant `sp267 / 2^22` is a 24-bit significand within half a unit in the last
place of `2.67`. -/
theorem sp267_nearest :
    2 ^ 23 ≤ sp267 ∧ sp267 < 2 ^ 24 ∧
    2 * (sp267 * 100 - 267 * 2 ^ 22) < 100 ∧ 267 * 2 ^ 22 ≤ sp267 * 100 := by
  decide

/-- On the text scales `5, ..., 65` the icon size is `floor(2.67 * textSize)`, between
13 and 173. -/
theorem iconSizeOf_range (t : Int) (h5 : 5 ≤ t) (h65 : t ≤ 65) :
    iconSizeOf t = 267 * t / 100 ∧ 13 ≤ iconSizeOf t ∧ iconSizeOf t ≤ 173 := by
  interval_cases t <;> decide

/-- With a non-negative width and a positive icon size the column computation succeeds
with `max(1, w / (s*4))`. -/
theorem gridColumns_val (w s : Int) (hw : 0 ≤ w) (hs : 1 ≤ s) :
    gridColumns w s = some (max 1 (w / (s * 4))) := by
  have hs4 : s * 4 ≠ 0 := by omega
  have hdiv : w.tdiv (s * 4) = w / (s * 4) := Int.tdiv_eq_ediv hw (by omega)
  have hnn : 0 ≤ w / (s * 4) := Int.ediv_nonneg hw (by omega)
  simp only [gridColumns, goDiv, if_neg hs4, Option.bind_eq_bind, Option.some_bind, hdiv]
  congr 1
  generalize w / (s * 4) = n at hnn
  split_ifs with h
  · subst h; rfl
  · omega

/-- A key event changes none of the cached layout fields. -/
theorem handleKeyEvent_cache (toLower : String → String) (allEntries : List iconEntry)
    (ib : iconBrowser) (e : keyEvent) :
    (handleKeyEvent toLower allEntries ib e).textSize = ib.textSize ∧
    (handleKeyEvent toLower allEntries ib e).iconSize = ib.iconSize ∧
    (handleKeyEvent toLower allEntries ib e).maxWidth = ib.maxWidth ∧
    (handleKeyEvent toLower allEntries ib e).numPerRow = ib.numPerRow := by
  unfold handleKeyEvent runSearch scrollResultListTop
  split_ifs <;> exact ⟨rfl, rfl, rfl, rfl⟩

/-- Key events preserve the invariant. -/
theorem handleKeyEvents_ready (toLower : String → String) (allEntries : List iconEntry)
    (keys : List keyEvent) :
    ∀ ib : iconBrowser, layoutReady ib →
      layoutReady (handleKeyEvents toLower allEntries ib keys) := by
  induction keys with
  | nil => intro ib h; simpa [handleKeyEvents] using h
  | cons e rest ih =>
    intro ib h
    have hr := handleKeyEvent_textSize_range toLower allEntries ib e ⟨h.1, h.2.1⟩
    obtain ⟨c1, c2, _, c4⟩ := handleKeyEvent_cache toLower allEntries ib e
    have h1 : layoutReady (handleKeyEvent toLower allEntries ib e) := by
      refine ⟨hr.1, hr.2, ?_⟩
      rw [c1, c2, c4]
      exact h.2.2
    simpa [handleKeyEvents] using ih _ h1

/-- Receiving a search response preserves the invariant. -/
theorem deliver_ready (ib : iconBrowser) (k : Nat) (h : layoutReady ib) :
    layoutReady (deliver ib k) := by
  unfold deliver
  split
  · exact h
  · unfold recvResponse scrollResultListTop
    split_ifs <;> exact h

/-- The start of `layout` preserves the invariant. -/
theorem layoutBegin_ready (toLower : String → String) (allEntries : List iconEntry)
    (ib : iconBrowser) (h : layoutReady ib) :
    layoutReady (layoutBegin toLower allEntries ib) := by
  unfold layoutBegin runSearch
  dsimp only
  split_ifs <;> exact h

/-- From a state satisfying the invariant, `ensure` on a non-negative width succeeds and
leaves a positive icon size and column count, whether it recomputes or not. -/
theorem ensure_ready (ib : iconBrowser) (w : Int) (hw : 0 ≤ w) (h : layoutReady ib) :
    ∃ ib1, ensure ib w = some ib1 ∧ layoutReady ib1 ∧
      1 ≤ ib1.iconSize ∧ 1 ≤ ib1.numPerRow ∧ ib1.matchedIndices = ib.matchedIndices := by
  obtain ⟨h5, h65, hc⟩ := h
  by_cases hre : ib.textSize ≠ ib.thTextSize ∨ ib.maxWidth ≠ w
  · obtain ⟨_, h13, _⟩ := iconSizeOf_range ib.thTextSize h5 h65
    have hcols := gridColumns_val w (iconSizeOf ib.thTextSize) hw (by omega)
    refine ⟨{ ib with textSize := ib.thTextSize, iconSize := iconSizeOf ib.thTextSize,
                      maxWidth := w, numPerRow := max 1 (w / (iconSizeOf ib.thTextSize * 4)) },
      ?_, ⟨h5, h65, Or.inr ⟨by show 1 ≤ iconSizeOf ib.thTextSize; omega, le_max_left _ _⟩⟩,
      by show 1 ≤ iconSizeOf ib.thTextSize; omega, le_max_left _ _, rfl⟩
    simp only [ensure, if_pos hre, hcols, Option.bind_eq_bind, Option.some_bind]
  · have hts : ib.textSize = ib.thTextSize := by
      by_contra hne
      exact hre (Or.inl hne)
    have hpos : 1 ≤ ib.iconSize ∧ 1 ≤ ib.numPerRow := by
      rcases hc with h0 | hp
      · omega
      · exact hp
    exact ⟨ib, by simp only [ensure, if_neg hre], ⟨h5, h65, Or.inr hpos⟩, hpos.1, hpos.2, rfl⟩

/-- With at least one column `layResults` succeeds; its rows are the consecutive slices
of the matched list. -/
theorem layResults_eq_slices (ib : iconBrowser) (maxX : Int) (k : Nat) (hk : 1 ≤ k)
    (hcols : ib.numPerRow = (k : Int)) :
    layResults ib maxX
      = some ((List.range (((ib.matchedIndices.getD []).length + k - 1) / k)).map
          (fun i => ((ib.matchedIndices.getD []).drop (i * k)).take k)) := by
  have hrows := numRows_eq_ceil (ib.matchedIndices.getD []).length k hk
  simp only [layResults, hcols, hrows, Option.bind_eq_bind, Option.some_bind, Int.toNat_ofNat]
  exact mapM_eq_some_map _ _ _ (fun i _ => layRow_eq _ k hk maxX i)

/-- A frame with a non-negative width, run from a state satisfying the invariant,
completes without a panic and re-establishes the invariant. -/
theorem layout_ready (toLower : String → String) (allEntries : List iconEntry)
    (ib : iconBrowser) (f : frameInput) (hw : 0 ≤ f.maxX) (h : layoutReady ib) :
    ∃ ib1, layout toLower allEntries ib f = some ib1 ∧ layoutReady ib1 := by
  obtain ⟨ib2, he, hr2, hi2, hn2, _⟩ :=
    ensure_ready (layoutBegin toLower allEntries ib) f.maxX hw
      (layoutBegin_ready toLower allEntries ib h)
  obtain ⟨k, hk⟩ : ∃ k : Nat, ib2.numPerRow = (k : Int) := ⟨ib2.numPerRow.toNat, by omega⟩
  have hk1 : 1 ≤ k := by omega
  cases hty : f.typed with
  | none =>
    have hl := layResults_eq_slices ib2 f.maxX k hk1 hk
    refine ⟨{ ib2 with position := f.scrolled }, ?_, hr2⟩
    simp only [layout, he, hty, hl, Option.bind_eq_bind, Option.some_bind]
  | some t =>
    have hl := layResults_eq_slices { ib2 with searchText := t, searchChanged := true }
      f.maxX k hk1 hk
    refine ⟨{ ib2 with searchText := t, searchChanged := true, position := f.scrolled },
      ?_, hr2⟩
    simp only [layout, he, hty, hl, Option.bind_eq_bind, Option.some_bind]

/-- Every event of the loop preserves the invariant and completes, provided frames have
non-negative width. -/
theorem runStep_ready (toLower : String → String) (allEntries : List iconEntry)
    (ib : iconBrowser) (ev : loopEvent) (hw : ∀ f, ev = loopEvent.frame f → 0 ≤ f.maxX)
    (h : layoutReady ib) :
    ∃ ib1, runStep toLower allEntries ib ev = some ib1 ∧ layoutReady ib1 := by
  cases ev with
  | frame f =>
    exact layout_ready toLower allEntries _ f (hw f rfl)
      (handleKeyEvents_ready toLower allEntries f.keys ib h)
  | response k => exact ⟨_, rfl, deliver_ready ib k h⟩

/-- Every finite run of the loop from a state satisfying the invariant completes and
ends in a state satisfying it. -/
theorem foldlM_runStep_ready (toLower : String → String) (allEntries : List iconEntry) :
    ∀ (events : List loopEvent) (ib : iconBrowser),
      (∀ f, loopEvent.frame f ∈ events → 0 ≤ f.maxX) → layoutReady ib →
        ∃ ib1, events.foldlM (runStep toLower allEntries) ib = some ib1 ∧ layoutReady ib1 := by
  intro events
  induction events with
  | nil => intro ib _ h; exact ⟨ib, rfl, h⟩
  | cons ev rest ih =>
    intro ib hw h
    obtain ⟨ib1, hs, h1⟩ := runStep_ready toLower allEntries ib ev
      (fun f hf => hw f (by rw [hf]; exact List.mem_cons_self _ _)) h
    obtain ⟨ib2, hr, h2⟩ := ih ib1 (fun f hf => hw f (List.mem_cons_of_mem _ hf)) h1
    refine ⟨ib2, ?_, h2⟩
    rw [List.foldlM_cons, hs]
    exact hr

/-- C10: layout computation cannot fail.  Every finite sequence of loop events from
the startup state (text scale 18, cached `textSize`, `maxWidth`, `iconSize`,
`numPerRow` all zero) whose frames have viewport width `≥ 0` runs to completion, and in
the state it reaches every further frame of width `≥ 0`, after any key events, has
`iconSize * 4 > 0` and `numPerRow ≥ 1` once `ensure` has run, so that `ensure`,
`layResults` and `layEntry` complete without dividing by zero; this includes the frames
on which `ensure` skips the recomputation and returns the state unchanged. -/
theorem layout_never_divides_by_zero (toLower : String → String)
    (allEntries : List iconEntry) (events : List loopEvent)
    (hw : ∀ f, loopEvent.frame f ∈ events → 0 ≤ f.maxX) :
    ∃ ib, run toLower allEntries events = some ib ∧
      ∀ f : frameInput, 0 ≤ f.maxX →
        ∃ ib1,
          ensure (layoutBegin toLower allEntries
            (handleKeyEvents toLower allEntries ib f.keys)) f.maxX = some ib1 ∧
          0 < ib1.iconSize * 4 ∧ 1 ≤ ib1.numPerRow ∧
          (∃ rows, layResults ib1 f.maxX = some rows) ∧
          (∀ index : Nat, ∃ w, layEntry ib1.numPerRow f.maxX index = some w) ∧
          (∃ ib2, runStep toLower allEntries ib (loopEvent.frame f) = some ib2) ∧
          (¬ ((layoutBegin toLower allEntries
                (handleKeyEvents toLower allEntries ib f.keys)).textSize
                ≠ (layoutBegin toLower allEntries
                    (handleKeyEvents toLower allEntries ib f.keys)).thTextSize ∨
              (layoutBegin toLower allEntries
                (handleKeyEvents toLower allEntries ib f.keys)).maxWidth ≠ f.maxX) →
            ib1 = layoutBegin toLower allEntries
              (handleKeyEvents toLower allEntries ib f.keys)) := by
  have h0 : layoutReady initBrowser := ⟨by decide, by decide, Or.inl rfl⟩
  obtain ⟨ib, hrun, hready⟩ := foldlM_runStep_ready toLower allEntries events initBrowser hw h0
  refine ⟨ib, hrun, ?_⟩
  intro f hf
  have hk := handleKeyEvents_ready toLower allEntries f.keys ib hready
  have hb := layoutBegin_ready toLower allEntries _ hk
  obtain ⟨ib1, he, _, hi, hn, _⟩ := ensure_ready _ f.maxX hf hb
  obtain ⟨k, hkc⟩ : ∃ k : Nat, ib1.numPerRow = (k : Int) := ⟨ib1.numPerRow.toNat, by omega⟩
  have hn0 : ib1.numPerRow ≠ 0 := by omega
  refine ⟨ib1, he, by omega, hn, ⟨_, layResults_eq_slices ib1 f.maxX k (by omega) hkc⟩, ?_, ?_, ?_⟩
  · intro index
    exact ⟨f.maxX.tdiv ib1.numPerRow, by simp only [layEntry, goDiv, if_neg hn0]⟩
  · obtain ⟨ib2, h2, _⟩ := runStep_ready toLower allEntries ib (loopEvent.frame f)
      (fun g hg => by cases hg; exact hf) hready
    exact ⟨ib2, h2⟩
  · intro hskip
    simp only [ensure, if_neg hskip] at he
    exact (Option.some.inj he).symm

/-- Instance of C10: the four-frame session, whose second frame skips the
recomputation, runs to completion and leaves 1 column at width 0. -/
theorem layout_never_divides_by_zero_witness :
    (∀ f, loopEvent.frame f ∈ resizeSession → 0 ≤ f.maxX) ∧
    (∃ ib, run asciiToLower demoEntries resizeSession = some ib) ∧
    (run asciiToLower demoEntries resizeSession).map
        (fun ib => (ib.thTextSize, ib.iconSize, ib.numPerRow)) = some (19, 50, 1) ∧
    (run asciiToLower demoEntries (resizeSession.take 2)).map
        (fun ib => (ib.thTextSize, ib.iconSize, ib.numPerRow)) = some (18, 48, 4) :=
  have hw : ∀ f, loopEvent.frame f ∈ resizeSession → 0 ≤ f.maxX := by
    intro f hf
    simp only [resizeSession, List.mem_cons, loopEvent.frame.injEq, List.mem_singleton,
      List.not_mem_nil, or_false] at hf
    rcases hf with h | h | h | h <;> subst h <;> decide
  ⟨hw,
   let ⟨ib, h, _⟩ := layout_never_divides_by_zero asciiToLower demoEntries resizeSession hw
   ⟨ib, h⟩,
   by decide, by decide⟩

end IconBrowser
